import Mathlib

/-!
# Simple file server: storage, listing, links and the admin page

A shallow embedding of `main.go`: the two helpers `getFileList` and
`deleteFile`, the two counter getters, and the route handlers for upload,
file detail, direct link, file deletion and the admin page.

The program talks to the outside through Go's `path/filepath`, `os` and
`io/ioutil`.  Those library calls are given a small explicit semantics here:

* paths are Unix paths (separator `/`); `Clean`, `Join`, `Base`, `Dir` and
  `Split` follow the algorithms of `path/filepath`, element by element;
* the file system is a finite map from clean paths, relative to the working
  directory of the process, to nodes; there are no symbolic links and no
  permissions, so a system call resolves its argument lexically; a call on
  a path that resolves to nothing reports `ENOTDIR` when the path runs
  through a regular file and `ENOENT` otherwise;
* calls to the `log` package only append lines to the process log through
  the descriptor opened at start-up; they decide no value and no effect on
  the directory tree, and are left out.
-/

set_option autoImplicit false

namespace SimpleFS

/-! ## Paths (`path/filepath`, Unix) -/

/-- The elements of a path between separators, empty elements included. -/
def elems : List Char → List (List Char)
  | [] => [[]]
  | c :: cs =>
    if c = '/' then [] :: elems cs
    else
      match elems cs with
      | [] => [[c]]
      | e :: es => (c :: e) :: es

/-- The element `..`. -/
def dotdot : List Char := ['.', '.']

/-- The loop of `filepath.Clean`, one path element at a time.  `out` is the
output written so far, last element first.  Empty elements and `.` are
skipped; `..` removes the last real element, is dropped at the root of a
rooted path, and is kept when a relative path has nothing left to remove. -/
def cleanLoop (rooted : Bool) : List (List Char) → List (List Char) → List (List Char)
  | out, [] => out.reverse
  | out, e :: es =>
    if e = [] then cleanLoop rooted out es
    else if e = ['.'] then cleanLoop rooted out es
    else if e = dotdot then
      match out with
      | top :: rest =>
        if top = dotdot then cleanLoop rooted (e :: out) es
        else cleanLoop rooted rest es
      | [] =>
        if rooted then cleanLoop rooted [] es
        else cleanLoop rooted [e] es
    else cleanLoop rooted (e :: out) es

/-- Elements joined by the separator. -/
def joinElems : List (List Char) → List Char
  | [] => []
  | [e] => e
  | e :: es => e ++ '/' :: joinElems es

/-- `filepath.Clean` on the characters of a path. -/
def cleanChars (path : List Char) : List Char :=
  match path with
  | [] => ['.']
  | c :: _ =>
    let rooted := decide (c = '/')
    let out := joinElems (cleanLoop rooted [] (elems path))
    if rooted then '/' :: out
    else if out = [] then ['.'] else out

/-- `filepath.Clean`. -/
def Clean (path : String) : String := ⟨cleanChars path.data⟩

/-- `filepath.Join` of two elements: empty leading elements are ignored and
the rest is joined by the separator and cleaned. -/
def Join (a b : String) : String :=
  if a ≠ "" then Clean (a ++ "/" ++ b)
  else if b ≠ "" then Clean b
  else ""

/-- Drops the separators at the end of a path, given last character first. -/
def dropSlashes : List Char → List Char
  | [] => []
  | c :: cs => if c = '/' then dropSlashes cs else c :: cs

/-- The characters before the first separator. -/
def untilSlash : List Char → List Char
  | [] => []
  | c :: cs => if c = '/' then [] else c :: untilSlash cs

/-- The characters from the first separator on, the separator included. -/
def fromSlash : List Char → List Char
  | [] => []
  | c :: cs => if c = '/' then c :: cs else fromSlash cs

/-- `filepath.Base` on the characters of a path. -/
def baseChars (path : List Char) : List Char :=
  if path = [] then ['.']
  else
    let last := (untilSlash (dropSlashes path.reverse)).reverse
    if last = [] then ['/'] else last

/-- `filepath.Base`: the last element of a path, trailing separators
removed; `.` for the empty path and `/` for a path of separators only. -/
def Base (path : String) : String := ⟨baseChars path.data⟩

/-- `filepath.Split`: the path up to and including its last separator, and
what follows it. -/
def Split (path : String) : String × String :=
  (⟨(fromSlash path.data.reverse).reverse⟩, ⟨(untilSlash path.data.reverse).reverse⟩)

/-- `filepath.Dir`: all but the last element of a path, cleaned. -/
def Dir (path : String) : String := Clean (Split path).1

/-- The metacharacters test of `filepath.Glob` (`hasMeta`, Unix). -/
def hasMeta (path : String) : Bool :=
  path.data.any (fun c => c = '*' || c = '?' || c = '[' || c = '\\')

/-- The directory part of a pattern as `filepath.Glob` prepares it
(`cleanGlobPath`): `.` for the empty string, the root kept, and otherwise
the trailing separator chopped. -/
def cleanGlobPath (path : String) : String :=
  if path = "" then "."
  else if path = "/" then path
  else ⟨path.data.dropLast⟩

/-! ## The file system (`os`, `io/ioutil`) -/

/-- The bytes of a file or of a string. -/
abbrev Bytes := List (Fin 256)

/-- The error numbers that the modelled system calls report. -/
inductive Errno
  | ENOENT
  | ENOTDIR
  | EISDIR
  | ENOTEMPTY
  | EINVAL
  | EBUSY
  deriving DecidableEq, Repr

/-- What a path names: a regular file with its bytes, or a directory. -/
inductive Node
  | file (content : Bytes)
  | dir
  deriving DecidableEq, Repr

/-- The directory tree seen from the working directory of the process: clean
paths and the nodes they name.  The first binding of a path is the one that
counts. -/
abbrev FS := List (String × Node)

/-- The node bound to a clean path. -/
def lookup (fs : FS) (q : String) : Option Node :=
  match fs with
  | [] => none
  | (k, n) :: rest => if k = q then some n else lookup rest q

/-- The tree without any binding of `q`. -/
def erase (fs : FS) (q : String) : FS :=
  fs.filter (fun e => decide (e.1 ≠ q))

/-- The tree with `q` bound to `n`. -/
def store (fs : FS) (q : String) (n : Node) : FS :=
  (q, n) :: erase fs q

/-- The directories that exist whatever the tree holds: the working
directory `.`, the root `/`, and the ancestors `..`, `../..`, ... of the
working directory. -/
def isFixedDir (q : String) : Bool :=
  q = "." || q = "/" || (elems q.data).all (fun e => decide (e = dotdot))

/-- The node a path resolves to (`stat`), `none` when it resolves to nothing.
Resolution is lexical; which error a call reports for a path that resolves
to nothing is `absentErrno`. -/
def stat (fs : FS) (path : String) : Option Node :=
  let q := Clean path
  if isFixedDir q then some Node.dir else lookup fs q

/-- Whether the clean path `k` lies below the directory `d`. -/
def below (d k : String) : Bool :=
  (d.data ++ ['/']).isPrefixOf k.data

/-- Whether the clean path `q` runs through a regular file: the tree binds
some path to a regular file and `q` lies below that path. -/
def throughFile (fs : FS) (q : String) : Bool :=
  fs.any (fun e =>
    below e.1 q &&
      match lookup fs e.1 with
      | some (Node.file _) => true
      | _ => false)

/-- The error of a system call on a path that resolves to nothing: `ENOTDIR`
when the path runs through a regular file, `ENOENT` otherwise. -/
def absentErrno (fs : FS) (path : String) : Errno :=
  if throughFile fs (Clean path) then Errno.ENOTDIR else Errno.ENOENT

/-- Whether a path resolves to a regular file. -/
def holdsFile (fs : FS) (path : String) : Bool :=
  match stat fs path with
  | some (Node.file _) => true
  | _ => false

/-- System call `unlink`: removes a name that is not a directory. -/
def unlink (fs : FS) (path : String) : FS × Option Errno :=
  match stat fs path with
  | none => (fs, some (absentErrno fs path))
  | some Node.dir => (fs, some Errno.EISDIR)
  | some (Node.file _) => (erase fs (Clean path), none)

/-- System call `rmdir`: removes an empty directory. -/
def rmdir (fs : FS) (path : String) : FS × Option Errno :=
  let q := Clean path
  if q = "." then (fs, some Errno.EINVAL)
  else if q = "/" then (fs, some Errno.EBUSY)
  else if isFixedDir q then (fs, some Errno.ENOTEMPTY)
  else
    match lookup fs q with
    | none => (fs, some (absentErrno fs path))
    | some (Node.file _) => (fs, some Errno.ENOTDIR)
    | some Node.dir =>
      if fs.any (fun e => below q e.1) then (fs, some Errno.ENOTEMPTY)
      else (erase fs q, none)

/-- `os.Remove`: tries `unlink`, then `rmdir`; when both fail the error of
`rmdir` is reported unless it is `ENOTDIR`. -/
def Remove (fs : FS) (name : String) : FS × Option Errno :=
  match unlink fs name with
  | (fs1, none) => (fs1, none)
  | (_, some e) =>
    match rmdir fs name with
    | (fs2, none) => (fs2, none)
    | (_, some e1) => (fs, some (if e1 ≠ Errno.ENOTDIR then e1 else e))

/-- `os.Create` followed by writing `content` and closing: the file is
created or truncated.  It fails on a directory and when the parent of the
path is not an existing directory. -/
def Create (fs : FS) (name : String) (content : Bytes) : FS × Option Errno :=
  match stat fs name with
  | some Node.dir => (fs, some Errno.EISDIR)
  | _ =>
    match stat fs (Dir (Clean name)) with
    | some Node.dir => (store fs (Clean name) (Node.file content), none)
    | some (Node.file _) => (fs, some Errno.ENOTDIR)
    | none => (fs, some (absentErrno fs (Dir (Clean name))))

deriving instance DecidableEq for Except

/-- `ioutil.ReadFile`: the bytes of a regular file. -/
def ReadFile (fs : FS) (name : String) : Except Errno Bytes :=
  match stat fs name with
  | some (Node.file c) => Except.ok c
  | some Node.dir => Except.error Errno.EISDIR
  | none => Except.error (absentErrno fs name)

/-- The name under which the clean path `k` is an entry of the directory
`d`, if it is one. -/
def entryName (d k : String) : Option String :=
  let rest :=
    if d = "." then some k.data
    else if d = "/" then ['/'].isPrefixOf? k.data
    else (d.data ++ ['/']).isPrefixOf? k.data
  match rest with
  | none => none
  | some n =>
    if n ≠ [] ∧ '/' ∉ n ∧ n ≠ ['.'] ∧ n ≠ dotdot then some ⟨n⟩ else none

/-- `Readdirnames(-1)` on an open directory: the names of its entries, in
the order the tree holds them. -/
def Readdirnames (fs : FS) (d : String) : List String :=
  (fs.filterMap (fun e => entryName d e.1)).dedup

/-- Lexicographic comparison of two strings character by character; on
UTF-8 strings this is the byte order Go compares strings by. -/
def lexLE : List Char → List Char → Bool
  | [], _ => true
  | _ :: _, [] => false
  | a :: as, b :: bs =>
    if a.toNat < b.toNat then true
    else if b.toNat < a.toNat then false
    else lexLE as bs

/-- The order `sort.Strings` sorts by. -/
def stringLE (a b : String) : Prop := lexLE a.data b.data = true

instance : DecidableRel stringLE := fun a b =>
  inferInstanceAs (Decidable (lexLE a.data b.data = true))

/-- `filepath.Match("*", name)`: a lone star matches any name without a
separator. -/
def matchStar (name : String) : Bool := !('/' ∈ name.data)

/-- The helper `glob(dir, "*", nil)` of `path/filepath`: nothing when `dir`
is not a directory; otherwise the names of its entries are read, sorted
(`sort.Strings`, whose result is the sorted arrangement of the names),
matched against `*` and joined to `dir`. -/
def glob (fs : FS) (dir : String) : List String :=
  match stat fs dir with
  | some Node.dir =>
    (((Readdirnames fs (Clean dir)).insertionSort stringLE).filter matchStar).map (Join dir)
  | _ => []

/-- `filepath.Glob` on the tree `fs`.  A pattern whose last element is `*`
and whose directory part has no metacharacter is well formed and is
answered by `glob` on that directory; that is the only shape of pattern the
program builds for its storage root.  Every other pattern is answered by
`other`, which stands for the part of `Glob` that is not interpreted here. -/
def Glob (other : String → Except String (List String)) (fs : FS) (pattern : String) :
    Except String (List String) :=
  if (Split pattern).2 = "*" ∧ hasMeta (Split pattern).1 = false then
    Except.ok (glob fs (cleanGlobPath (Split pattern).1))
  else other pattern

/-! ## The program (`main.go`) -/

/-- The record `File` of `main.go`. -/
structure File where
  Name : String
  URL : String
  IsDir : Bool
  Password : String
  deriving DecidableEq, Repr

/-- The record `AdminStats` of `main.go`; `LogContent` holds the bytes of the
Go string. -/
structure AdminStats where
  UploadCount : Int
  DownloadCount : Int
  LogContent : Bytes
  Files : List File
  deriving DecidableEq, Repr

/-- The state a request runs in: the directory tree and the two package
variables `uploadCount` and `downloadCount`. -/
structure Server where
  fs : FS
  uploadCount : Int
  downloadCount : Int
  deriving DecidableEq, Repr

/-- A part of a multipart form that carries a file (`multipart.FileHeader`
with the bytes it opens to). -/
structure FileHeader where
  Filename : String
  Content : Bytes
  deriving DecidableEq, Repr

/-- What a handler hands to `c.String` or to `tmpl.Execute`. -/
inductive Body
  | text (s : String)
  | fileInfo (f : File)
  | admin (stats : AdminStats)
  deriving DecidableEq, Repr

/-- The answer to a request: the status code and the body.  A template that
is executed answers with status 200; the constant templates of `main.go`
parse, and writing to the client is taken to succeed. -/
structure Response where
  status : Nat
  body : Body
  deriving DecidableEq, Repr

/-- `getTodayUploadCount` of `main.go`: `return 0`.  The state is an argument
only because a Go function can read the package variables; this one reads
none. -/
def getTodayUploadCount (_s : Server) : Int := 0

/-- `getTodayDownloadCount` of `main.go`: `return 0`. -/
def getTodayDownloadCount (_s : Server) : Int := 0

/-- `getFileList` of `main.go`, over the directory scan `Glob` it calls:
`nil` when the scan fails, and otherwise one record per match, in order. -/
def getFileList (Glob : String → Except String (List String)) (dir : String) : List File :=
  match Glob (Join dir "*") with
  | Except.error _ => []
  | Except.ok files =>
    files.map (fun file =>
      { Name := Base file
        URL := "/uploads/" ++ Base file
        IsDir := false
        Password := "your_password" })

/-- `deleteFile` of `main.go`: `os.Remove` of the name joined to `uploads`;
the new tree and the error, `none` for `nil`. -/
def deleteFile (fs : FS) (name : String) : FS × Option Errno :=
  Remove fs (Join "uploads" name)

/-- The record the upload handler renders on success: `File{Name, URL}` with
the other fields at their zero values. -/
def successFile (filename : String) : File :=
  { Name := filename
    URL := "/uploads/" ++ filename
    IsDir := false
    Password := "" }

/-- The record the handler of `GET /file/:name` builds for a name. -/
def detailFile (name : String) : File :=
  { Name := name
    URL := "/uploads/" ++ name
    IsDir := false
    Password := "your_password" }

/-- `c.SaveUploadedFile(file, dst)` of gin: opens the part, creates `dst`
and copies the bytes. -/
def SaveUploadedFile (fs : FS) (file : FileHeader) (dst : String) : FS × Option Errno :=
  Create fs dst file.Content

/-- Handler of `POST /upload`; `form` is the outcome of `c.FormFile("file")`. -/
def uploadHandler (s : Server) (form : Option FileHeader) : Server × Response :=
  match form with
  | none => (s, { status := 400, body := Body.text "无法获取上传的文件" })
  | some file =>
    match SaveUploadedFile s.fs file ("uploads/" ++ file.Filename) with
    | (_, some _) => (s, { status := 500, body := Body.text "无法保存文件" })
    | (fs1, none) =>
      ({ s with fs := fs1 }, { status := 200, body := Body.fileInfo (successFile file.Filename) })

/-- Handler of `GET /file/:name`. -/
def fileHandler (s : Server) (name : String) : Server × Response :=
  (s, { status := 200, body := Body.fileInfo (detailFile name) })

/-- Handler of `GET /file/:name/direct-link`; `host` is `c.Request.Host`. -/
def directLinkHandler (s : Server) (host name : String) : Server × Response :=
  (s, { status := 200, body := Body.text (host ++ "/uploads/" ++ name) })

/-- Handler of `GET /admin/`, for a request that passed the basic
authentication. -/
def adminHandler (other : String → Except String (List String)) (s : Server) :
    Server × Response :=
  let uploadCount := getTodayUploadCount s
  let downloadCount := getTodayDownloadCount s
  match ReadFile s.fs "app.log" with
  | Except.error _ => (s, { status := 500, body := Body.text "无法读取日志文件" })
  | Except.ok logContent =>
    let files := getFileList (Glob other s.fs) "uploads"
    (s,
      { status := 200
        body := Body.admin
          { UploadCount := uploadCount
            DownloadCount := downloadCount
            LogContent := logContent
            Files := files } })

/-- Handler of `GET /admin/file/:name/delete`. -/
def deleteHandler (s : Server) (name : String) : Server × Response :=
  match deleteFile s.fs name with
  | (_, some _) => (s, { status := 500, body := Body.text "无法删除文件" })
  | (fs1, none) => ({ s with fs := fs1 }, { status := 200, body := Body.text "文件删除成功" })

/-- The server after a sequence of upload requests, and the status of each. -/
def runUploads (s : Server) : List FileHeader → Server × List Nat
  | [] => (s, [])
  | f :: fs =>
    let r := uploadHandler s (some f)
    let q := runUploads r.1 fs
    (q.1, r.2.status :: q.2)

/-- An entry name: not empty, without separator, and neither `.` nor `..`. -/
def validName (l : List Char) : Prop :=
  l ≠ [] ∧ '/' ∉ l ∧ l ≠ ['.'] ∧ l ≠ dotdot

/-- The characters of `uploads`. -/
def uploadsChars : List Char := ['u', 'p', 'l', 'o', 'a', 'd', 's']

/-! ## Facts about the tree -/

theorem lookup_erase_self (fs : FS) (q : String) : lookup (erase fs q) q = none := by
  induction fs with
  | nil => rfl
  | cons e rest ih =>
    obtain ⟨k, n⟩ := e
    by_cases hk : k = q
    · simpa [erase, List.filter, hk] using ih
    · simpa [erase, List.filter, hk, lookup] using ih

theorem lookup_erase_ne (fs : FS) (q k : String) (h : k ≠ q) :
    lookup (erase fs q) k = lookup fs k := by
  induction fs with
  | nil => rfl
  | cons e rest ih =>
    obtain ⟨k1, n⟩ := e
    unfold erase at ih ⊢
    by_cases hk : k1 = q
    · have hk1 : k1 ≠ k := fun hh => h (hh ▸ hk)
      rw [List.filter_cons_of_neg (by simpa using hk)]
      simp only [lookup, if_neg hk1]
      exact ih
    · rw [List.filter_cons_of_pos (by simpa using hk)]
      by_cases hkk : k1 = k
      · simp only [lookup, if_pos hkk]
      · simp only [lookup, if_neg hkk]
        exact ih

theorem lookup_store_self (fs : FS) (q : String) (n : Node) : lookup (store fs q n) q = some n := by
  simp [store, lookup]

theorem lookup_store_ne (fs : FS) (q k : String) (n : Node) (h : k ≠ q) :
    lookup (store fs q n) k = lookup fs k := by
  have hq : q ≠ k := fun hh => h hh.symm
  simp [store, lookup, hq, lookup_erase_ne fs q k h]

theorem stat_eq_none (fs : FS) (p : String) :
    stat fs p = none ↔ isFixedDir (Clean p) = false ∧ lookup fs (Clean p) = none := by
  unfold stat
  by_cases hf : isFixedDir (Clean p) = true
  · simp [hf]
  · simp [hf]

theorem stat_of_not_fixed (fs : FS) (p : String) (hf : isFixedDir (Clean p) = false) :
    stat fs p = lookup fs (Clean p) := by
  unfold stat
  simp [hf]

/-- On a path that resolves to nothing `os.Remove` changes nothing and
reports `ENOENT`, or `ENOTDIR` when the path runs through a regular file. -/
theorem Remove_absent (fs : FS) (p : String) (h : stat fs p = none) :
    Remove fs p = (fs, some (absentErrno fs p)) := by
  obtain ⟨hf, hl⟩ := (stat_eq_none fs p).1 h
  have h1 : Clean p ≠ "." := by
    intro hh; rw [hh] at hf; revert hf; decide
  have h2 : Clean p ≠ "/" := by
    intro hh; rw [hh] at hf; revert hf; decide
  unfold Remove unlink rmdir
  simp [h, h1, h2, hf, hl]

/-- The two outcomes of `os.Remove`: an error and the tree as it was, or the
binding of the resolved path erased; the second only for a path that is
bound and is none of the fixed directories. -/
theorem Remove_outcome (fs : FS) (p : String) :
    (∃ e, Remove fs p = (fs, some e)) ∨
    (Remove fs p = (erase fs (Clean p), none) ∧ isFixedDir (Clean p) = false ∧
      ∃ n, lookup fs (Clean p) = some n) := by
  by_cases hf : isFixedDir (Clean p) = true
  · left
    have hs : stat fs p = some Node.dir := by unfold stat; simp [hf]
    by_cases h1 : Clean p = "."
    · exact ⟨Errno.EINVAL, by unfold Remove unlink rmdir; simp [hs, h1]⟩
    · by_cases h2 : Clean p = "/"
      · exact ⟨Errno.EBUSY, by unfold Remove unlink rmdir; simp [hs, h2]⟩
      · exact ⟨Errno.ENOTEMPTY, by unfold Remove unlink rmdir; simp [hs, h1, h2, hf]⟩
  · have hf' : isFixedDir (Clean p) = false := by simpa using hf
    have h1 : Clean p ≠ "." := by
      intro h; rw [h] at hf'; revert hf'; decide
    have h2 : Clean p ≠ "/" := by
      intro h; rw [h] at hf'; revert hf'; decide
    have hs := stat_of_not_fixed fs p hf'
    cases hl : lookup fs (Clean p) with
    | none =>
      left
      exact ⟨absentErrno fs p, Remove_absent fs p (by rw [hs, hl])⟩
    | some n =>
      cases n with
      | file c =>
        right
        exact ⟨by unfold Remove unlink; simp [hs, hl], hf', _, rfl⟩
      | dir =>
        by_cases hb : (fs.any (fun e => below (Clean p) e.1)) = true
        · left
          exact ⟨Errno.ENOTEMPTY, by
            unfold Remove unlink rmdir; simp only [hs, hl, h1, h2, hf', hb]; simp⟩
        · right
          exact ⟨by unfold Remove unlink rmdir; simp only [hs, hl, h1, h2, hf', hb]; simp,
            hf', _, rfl⟩

/-- When `Create` succeeds the path was no directory, its parent was one,
and the new tree binds the resolved path to the new file. -/
theorem Create_success (fs fs1 : FS) (p : String) (c : Bytes) (h : Create fs p c = (fs1, none)) :
    stat fs p ≠ some Node.dir ∧ stat fs (Dir (Clean p)) = some Node.dir ∧
      fs1 = store fs (Clean p) (Node.file c) := by
  unfold Create at h
  have key : stat fs p ≠ some Node.dir := by
    intro hd
    rw [hd] at h
    simp at h
  have h' : (match stat fs (Dir (Clean p)) with
      | some Node.dir => (store fs (Clean p) (Node.file c), (none : Option Errno))
      | some (Node.file _) => (fs, some Errno.ENOTDIR)
      | none => (fs, some (absentErrno fs (Dir (Clean p))))) = (fs1, none) := by
    rw [← h]
    cases hs : stat fs p with
    | none => rfl
    | some n =>
      cases n with
      | file c1 => rfl
      | dir => exact absurd hs key
  cases hp : stat fs (Dir (Clean p)) with
  | none => rw [hp] at h'; simp at h'
  | some n =>
    cases n with
    | file c1 => rw [hp] at h'; simp at h'
    | dir =>
      rw [hp] at h'
      simp only [Prod.mk.injEq, and_true] at h'
      exact ⟨key, rfl, h'.symm⟩

theorem Create_of_ok (fs : FS) (p : String) (c : Bytes) (h1 : stat fs p ≠ some Node.dir)
    (h2 : stat fs (Dir (Clean p)) = some Node.dir) :
    Create fs p c = (store fs (Clean p) (Node.file c), none) := by
  unfold Create
  cases hs : stat fs p with
  | none => simp [h2]
  | some n =>
    cases n with
    | file c1 => simp [h2]
    | dir => exact absurd hs h1

/-- A successful answer of the upload handler is a successful `Create`. -/
theorem uploadHandler_ok (s : Server) (f : FileHeader)
    (h : (uploadHandler s (some f)).2.status = 200) :
    Create s.fs ("uploads/" ++ f.Filename) f.Content = ((uploadHandler s (some f)).1.fs, none) := by
  unfold uploadHandler SaveUploadedFile at h ⊢
  simp only at h ⊢
  rcases hc : Create s.fs ("uploads/" ++ f.Filename) f.Content with ⟨fs1, e⟩
  rw [hc] at h
  cases e with
  | none => rfl
  | some e => simp at h

/-! ## Facts about paths and the directory scan -/

theorem elems_append_slash (a b : List Char) (ha : '/' ∉ a) :
    elems (a ++ '/' :: b) = a :: elems b := by
  induction a with
  | nil => simp [elems]
  | cons c a ih =>
    have hc : c ≠ '/' := fun h => ha (by simp [h])
    have ha1 : '/' ∉ a := fun h => ha (List.mem_cons_of_mem _ h)
    simp [elems, hc, ih ha1]

theorem elems_of_no_slash (a : List Char) (ha : '/' ∉ a) : elems a = [a] := by
  induction a with
  | nil => simp [elems]
  | cons c a ih =>
    have hc : c ≠ '/' := fun h => ha (by simp [h])
    have ha1 : '/' ∉ a := fun h => ha (List.mem_cons_of_mem _ h)
    simp [elems, hc, ih ha1]

theorem untilSlash_append_slash (a b : List Char) (ha : '/' ∉ a) :
    untilSlash (a ++ '/' :: b) = a := by
  induction a with
  | nil => simp [untilSlash]
  | cons c a ih =>
    have hc : c ≠ '/' := fun h => ha (by simp [h])
    have ha1 : '/' ∉ a := fun h => ha (List.mem_cons_of_mem _ h)
    simp [untilSlash, hc, ih ha1]

theorem dropSlashes_of_no_slash (a b : List Char) (hne : a ≠ []) (ha : '/' ∉ a) :
    dropSlashes (a ++ b) = a ++ b := by
  cases a with
  | nil => exact absurd rfl hne
  | cons c a =>
    have hc : c ≠ '/' := fun h => ha (by simp [h])
    simp [dropSlashes, hc]

theorem cleanChars_uploads_entry (l : List Char) (hl : validName l) :
    cleanChars (uploadsChars ++ '/' :: l) = uploadsChars ++ '/' :: l := by
  obtain ⟨h1, h2, h3, h4⟩ := hl
  have he : elems (uploadsChars ++ '/' :: l) = [uploadsChars, l] := by
    rw [elems_append_slash _ _ (by decide), elems_of_no_slash _ h2]
  have hloop : cleanLoop false [] [uploadsChars, l] = [uploadsChars, l] := by
    have hu1 : uploadsChars ≠ [] := by decide
    have hu2 : uploadsChars ≠ ['.'] := by decide
    have hu3 : uploadsChars ≠ dotdot := by decide
    simp [cleanLoop, hu1, hu2, hu3, h1, h3, h4]
  have hpath : uploadsChars ++ '/' :: l =
      'u' :: (['p', 'l', 'o', 'a', 'd', 's'] ++ '/' :: l) := rfl
  have hu : cleanChars ('u' :: (['p', 'l', 'o', 'a', 'd', 's'] ++ '/' :: l)) =
      uploadsChars ++ '/' :: l := by
    unfold cleanChars
    simp only
    rw [← hpath, he]
    have hd : decide ('u' = '/') = false := by decide
    rw [hd, hloop]
    simp [joinElems, uploadsChars]
  rw [hpath]
  exact hu

theorem baseChars_uploads_entry (l : List Char) (hl : validName l) :
    baseChars (uploadsChars ++ '/' :: l) = l := by
  obtain ⟨h1, h2, _, _⟩ := hl
  have hr : (uploadsChars ++ '/' :: l).reverse = l.reverse ++ '/' :: uploadsChars.reverse := by
    simp
  have hr1 : l.reverse ≠ [] := by simpa using h1
  have hr2 : '/' ∉ l.reverse := by simpa using h2
  unfold baseChars
  rw [if_neg (by simp [uploadsChars])]
  simp only
  rw [hr, dropSlashes_of_no_slash _ _ hr1 hr2, untilSlash_append_slash _ _ hr2]
  simp [h1]

/-- The base name of an entry name joined to `uploads` is the entry name. -/
theorem Base_Join_uploads (n : String) (hn : validName n.data) :
    Base (Join "uploads" n) = n := by
  have hj : Join "uploads" n = ⟨uploadsChars ++ '/' :: n.data⟩ := by
    unfold Join
    rw [if_pos (by decide)]
    unfold Clean
    have hd : ("uploads" ++ "/" ++ n).data = uploadsChars ++ '/' :: n.data := by
      simp [String.data_append, uploadsChars]
    rw [hd, cleanChars_uploads_entry _ hn]
  rw [hj]
  unfold Base
  simp only
  rw [baseChars_uploads_entry _ hn]

/-- Every name that `Readdirnames` reports for `uploads` is an entry name. -/
theorem validName_of_mem_Readdirnames (fs : FS) (n : String)
    (h : n ∈ Readdirnames fs "uploads") : validName n.data := by
  unfold Readdirnames at h
  rw [List.mem_dedup, List.mem_filterMap] at h
  obtain ⟨e, _, he⟩ := h
  unfold entryName at he
  rw [if_neg (by decide), if_neg (by decide)] at he
  simp only at he
  cases hp : (("uploads" : String).data ++ ['/']).isPrefixOf? e.1.data with
  | none => rw [hp] at he; simp at he
  | some l =>
    rw [hp] at he
    simp only at he
    by_cases hv : l ≠ [] ∧ '/' ∉ l ∧ l ≠ ['.'] ∧ l ≠ dotdot
    · rw [if_pos hv] at he
      simp only [Option.some.injEq] at he
      subst he
      exact hv
    · rw [if_neg hv] at he
      simp at he

theorem lexLE_total (a b : List Char) : lexLE a b = true ∨ lexLE b a = true := by
  induction a generalizing b with
  | nil => left; simp [lexLE]
  | cons x a ih =>
    cases b with
    | nil => right; simp [lexLE]
    | cons y b =>
      unfold lexLE
      by_cases h1 : x.toNat < y.toNat
      · left; simp [h1]
      · by_cases h2 : y.toNat < x.toNat
        · right; simp [h2]
        · simpa [h1, h2] using ih b

theorem lexLE_trans (a b c : List Char) (hab : lexLE a b = true) (hbc : lexLE b c = true) :
    lexLE a c = true := by
  induction a generalizing b c with
  | nil => simp [lexLE]
  | cons x a ih =>
    cases b with
    | nil => simp [lexLE] at hab
    | cons y b =>
      cases c with
      | nil => simp [lexLE] at hbc
      | cons z c =>
        unfold lexLE at hab hbc ⊢
        by_cases h1 : x.toNat < y.toNat
        · by_cases h2 : y.toNat < z.toNat
          · have : x.toNat < z.toNat := lt_trans h1 h2
            simp [this]
          · by_cases h3 : z.toNat < y.toNat
            · simp [h2, h3] at hbc
            · have hyz : y.toNat = z.toNat := by omega
              have : x.toNat < z.toNat := by omega
              simp [this]
        · by_cases h1b : y.toNat < x.toNat
          · simp [h1, h1b] at hab
          · have hxy : x.toNat = y.toNat := by omega
            simp only [h1, h1b, if_false] at hab
            by_cases h2 : y.toNat < z.toNat
            · have : x.toNat < z.toNat := by omega
              simp [this]
            · by_cases h3 : z.toNat < y.toNat
              · simp [h2, h3] at hbc
              · simp only [h2, h3, if_false] at hbc
                have hx1 : ¬ x.toNat < z.toNat := by omega
                have hx2 : ¬ z.toNat < x.toNat := by omega
                simp only [hx1, hx2, if_false]
                exact ih b c hab hbc

/-- What the scan of the storage root returns: the program's pattern is
answered by `glob` on `uploads`. -/
theorem Glob_uploads (other : String → Except String (List String)) (fs : FS) :
    Glob other fs (Join "uploads" "*") = Except.ok (glob fs "uploads") := by
  have hp : Join "uploads" "*" = "uploads/*" := by decide
  rw [hp]
  unfold Glob
  rw [if_pos (by decide)]
  exact congrArg (fun d => Except.ok (glob fs d)) (by decide)

/-! ## The claims -/

/-- C7, as stated, fails: no file is stored under the name `.` in an empty
storage directory, nor under the name `sub` of an empty sub-directory, yet
`deleteFile` returns no error for either and the tree after the call differs
from the tree before it: the directory the name resolves to is removed. -/
theorem deleteFile_removes_empty_directory :
    holdsFile [("uploads", Node.dir)] (Join "uploads" ".") = false ∧
    Readdirnames [("uploads", Node.dir)] "uploads" = [] ∧
    deleteFile [("uploads", Node.dir)] "." = ([], none) ∧
    holdsFile [("uploads", Node.dir), ("uploads/sub", Node.dir)] (Join "uploads" "sub") = false ∧
    deleteFile [("uploads", Node.dir), ("uploads/sub", Node.dir)] "sub" =
      ([("uploads", Node.dir)], none) := by
  decide

/-- C7, amended: for every tree and every name under which no regular file
is stored, the regular files and their contents after `deleteFile name` are
those before it; when nothing at all exists at the path the name resolves
to, `deleteFile` fails and leaves the whole tree as it was, the error being
`ENOENT` (not found), or `ENOTDIR` when the path runs through a regular
file; and `deleteFile` returns no error only when the name resolves to a
directory, which it then removes. -/
theorem deleteFile_without_file (fs : FS) (name : String)
    (h : holdsFile fs (Join "uploads" name) = false) :
    (∀ (p : String) (c : Bytes),
      stat (deleteFile fs name).1 p = some (Node.file c) ↔ stat fs p = some (Node.file c)) ∧
    (stat fs (Join "uploads" name) = none →
      deleteFile fs name =
        (fs, some (if throughFile fs (Clean (Join "uploads" name)) then Errno.ENOTDIR
          else Errno.ENOENT))) ∧
    ((deleteFile fs name).2 = none → stat fs (Join "uploads" name) = some Node.dir) := by
  unfold deleteFile
  rcases Remove_outcome fs (Join "uploads" name) with ⟨e, he⟩ | ⟨hr, hf, n, hn⟩
  · refine ⟨fun p c => by rw [he], fun hnone => Remove_absent fs _ hnone, fun hh => ?_⟩
    rw [he] at hh
    simp at hh
  · have hst : stat fs (Join "uploads" name) = some n := by
      rw [stat_of_not_fixed fs _ hf, hn]
    have hdir : n = Node.dir := by
      cases n with
      | dir => rfl
      | file c =>
        unfold holdsFile at h
        rw [hst] at h
        simp at h
    subst hdir
    rw [hr]
    refine ⟨fun p c => ?_, fun hnone => ?_, fun _ => hst⟩
    · by_cases hp : Clean p = Clean (Join "uploads" name)
      · have h1 : stat (erase fs (Clean (Join "uploads" name))) p = none := by
          unfold stat
          rw [hp]
          simp only [hf]
          exact lookup_erase_self _ _
        have h2 : stat fs p = some Node.dir := by
          unfold stat
          rw [hp]
          simp only [hf]
          exact hn
        simp only [h1, h2]
        simp
      · have h1 : stat (erase fs (Clean (Join "uploads" name))) p = stat fs p := by
          unfold stat
          simp only [lookup_erase_ne fs _ _ hp]
        simp only [h1]
    · rw [hst] at hnone
      simp at hnone

/-- Witness for C7, amended: in a storage directory that holds `a.txt`,
nothing is stored under `ghost.txt`, whose deletion fails with `ENOENT`, nor
under `a.txt/b`, whose deletion fails with `ENOTDIR`; both leave the tree
as it was. -/
theorem deleteFile_without_file_witness :
    holdsFile [("uploads", Node.dir), ("uploads/a.txt", Node.file [1])]
      (Join "uploads" "ghost.txt") = false ∧
    stat [("uploads", Node.dir), ("uploads/a.txt", Node.file [1])] (Join "uploads" "ghost.txt") =
      none ∧
    deleteFile [("uploads", Node.dir), ("uploads/a.txt", Node.file [1])] "ghost.txt" =
      ([("uploads", Node.dir), ("uploads/a.txt", Node.file [1])], some Errno.ENOENT) ∧
    deleteFile [("uploads", Node.dir), ("uploads/a.txt", Node.file [1])] "a.txt/b" =
      ([("uploads", Node.dir), ("uploads/a.txt", Node.file [1])], some Errno.ENOTDIR) :=
  ⟨by decide, by decide,
    ((deleteFile_without_file [("uploads", Node.dir), ("uploads/a.txt", Node.file [1])]
      "ghost.txt" (by decide)).2.1 (by decide)).trans (by decide),
    ((deleteFile_without_file [("uploads", Node.dir), ("uploads/a.txt", Node.file [1])]
      "a.txt/b" (by decide)).2.1 (by decide)).trans (by decide)⟩

/-- C1, as stated, fails: the name `../app.log` has a parent-directory
component and a separator, yet `deleteFile` returns no error and removes the
file `app.log`, which lies outside `uploads`. -/
theorem deleteFile_dotdot_removes_outside_root :
    deleteFile [("uploads", Node.dir), ("app.log", Node.file [1, 2])] "../app.log" =
      ([("uploads", Node.dir)], none) ∧
    stat [("uploads", Node.dir), ("app.log", Node.file [1, 2])] "app.log" = some (Node.file [1, 2]) ∧
    stat (deleteFile [("uploads", Node.dir), ("app.log", Node.file [1, 2])] "../app.log").1 "app.log" =
      none := by
  decide

/-- C1, amended: `deleteFile` checks nothing about the name.  For every name
it acts on the one path that `filepath.Join("uploads", name)` resolves to:
when it returns an error the tree is unchanged, and when it returns none an
entry existed at that path, is gone afterwards, and every other path
resolves as before.  The bare name `..` resolves to the working directory,
whose removal the system refuses, so for it `deleteFile` fails. -/
theorem deleteFile_acts_on_joined_path (fs : FS) (name : String) :
    ((deleteFile fs name).2 ≠ none → (deleteFile fs name).1 = fs) ∧
    ((deleteFile fs name).2 = none →
      stat fs (Join "uploads" name) ≠ none ∧
      stat (deleteFile fs name).1 (Join "uploads" name) = none ∧
      ∀ p, Clean p ≠ Clean (Join "uploads" name) →
        stat (deleteFile fs name).1 p = stat fs p) ∧
    deleteFile fs ".." = (fs, some Errno.EINVAL) := by
  rw [← and_assoc]
  refine ⟨?_, ?_⟩
  swap
  · have hj : Join "uploads" ".." = "." := by decide
    have hc : Clean "." = "." := by decide
    have hs : stat fs "." = some Node.dir := by
      unfold stat
      rw [hc]
      rfl
    unfold deleteFile Remove unlink rmdir
    rw [hj, hs, hc]
    rfl
  unfold deleteFile
  rcases Remove_outcome fs (Join "uploads" name) with ⟨e, he⟩ | ⟨hr, hf, n, hn⟩
  · rw [he]
    exact ⟨fun _ => rfl, fun hh => by simp at hh⟩
  · rw [hr]
    refine ⟨fun hh => by simp at hh, fun _ => ⟨?_, ?_, ?_⟩⟩
    · rw [stat_of_not_fixed fs _ hf, hn]; simp
    · rw [stat_of_not_fixed _ _ hf]; exact lookup_erase_self _ _
    · intro p hp
      unfold stat
      simp only [lookup_erase_ne fs _ _ hp]

/-- Witness for C1, amended: the successful branch at the name `../app.log`. -/
theorem deleteFile_acts_on_joined_path_witness :
    (deleteFile [("uploads", Node.dir), ("app.log", Node.file [1, 2])] "../app.log").2 = none ∧
    (stat [("uploads", Node.dir), ("app.log", Node.file [1, 2])] (Join "uploads" "../app.log") ≠ none ∧
    stat (deleteFile [("uploads", Node.dir), ("app.log", Node.file [1, 2])] "../app.log").1
      (Join "uploads" "../app.log") = none ∧
    ∀ p, Clean p ≠ Clean (Join "uploads" "../app.log") →
      stat (deleteFile [("uploads", Node.dir), ("app.log", Node.file [1, 2])] "../app.log").1 p =
        stat [("uploads", Node.dir), ("app.log", Node.file [1, 2])] p) :=
  ⟨by decide,
    (deleteFile_acts_on_joined_path [("uploads", Node.dir), ("app.log", Node.file [1, 2])]
      "../app.log").2.1 (by decide)⟩

/-- C2, as stated, fails: after `a.txt` has been uploaded with the byte 1, a
second upload of `a.txt` with the byte 2 is answered with status 200, not
with a failure, and the file stored under the name then holds the byte 2. -/
theorem upload_second_put_overwrites :
    (uploadHandler ⟨[("uploads", Node.dir)], 0, 0⟩ (some ⟨"a.txt", [1]⟩)).2.status = 200 ∧
    stat (uploadHandler ⟨[("uploads", Node.dir)], 0, 0⟩ (some ⟨"a.txt", [1]⟩)).1.fs
      "uploads/a.txt" = some (Node.file [1]) ∧
    (uploadHandler (uploadHandler ⟨[("uploads", Node.dir)], 0, 0⟩ (some ⟨"a.txt", [1]⟩)).1
      (some ⟨"a.txt", [2]⟩)).2.status = 200 ∧
    stat (uploadHandler (uploadHandler ⟨[("uploads", Node.dir)], 0, 0⟩ (some ⟨"a.txt", [1]⟩)).1
      (some ⟨"a.txt", [2]⟩)).1.fs "uploads/a.txt" = some (Node.file [2]) := by
  decide

/-- C2, amended: there is no collision check.  For every name `n` and bytes
`b1`, `b2`, when an upload of `n` with `b1` has succeeded, the file stored
under `n` holds `b1`, a second upload of `n` with `b2` succeeds as well, and
afterwards the file stored under `n` holds `b2`. -/
theorem upload_same_name_replaces (s : Server) (n : String) (b1 b2 : Bytes)
    (h : (uploadHandler s (some ⟨n, b1⟩)).2.status = 200) :
    stat (uploadHandler s (some ⟨n, b1⟩)).1.fs ("uploads/" ++ n) = some (Node.file b1) ∧
    (uploadHandler (uploadHandler s (some ⟨n, b1⟩)).1 (some ⟨n, b2⟩)).2.status = 200 ∧
    stat (uploadHandler (uploadHandler s (some ⟨n, b1⟩)).1 (some ⟨n, b2⟩)).1.fs
      ("uploads/" ++ n) = some (Node.file b2) := by
  have hc := uploadHandler_ok s ⟨n, b1⟩ h
  obtain ⟨hnd, hpar, hfs⟩ := Create_success _ _ _ _ hc
  simp only at hnd hpar hfs
  generalize (uploadHandler s (some ⟨n, b1⟩)).1 = s1 at hfs ⊢
  -- the resolved path is none of the fixed directories
  have hfix : isFixedDir (Clean ("uploads/" ++ n)) = false := by
    by_contra hcon
    apply hnd
    unfold stat
    simp [hcon]
  have hst1 : stat s1.fs ("uploads/" ++ n) = some (Node.file b1) := by
    rw [stat_of_not_fixed _ _ hfix, hfs, lookup_store_self]
  have hnd1 : stat s1.fs ("uploads/" ++ n) ≠ some Node.dir := by
    rw [hst1]; simp
  have hpar1 : stat s1.fs (Dir (Clean ("uploads/" ++ n))) = some Node.dir := by
    by_cases hd : isFixedDir (Clean (Dir (Clean ("uploads/" ++ n)))) = true
    · unfold stat; simp [hd]
    · have hd' : isFixedDir (Clean (Dir (Clean ("uploads/" ++ n)))) = false := by simpa using hd
      have hne : Clean (Dir (Clean ("uploads/" ++ n))) ≠ Clean ("uploads/" ++ n) := by
        intro heq
        apply hnd
        rw [stat_of_not_fixed _ _ hfix, ← heq, ← stat_of_not_fixed _ _ hd']
        exact hpar
      rw [stat_of_not_fixed _ _ hd', hfs, lookup_store_ne _ _ _ _ hne,
        ← stat_of_not_fixed _ _ hd']
      exact hpar
  have hc2 := Create_of_ok s1.fs ("uploads/" ++ n) b2 hnd1 hpar1
  refine ⟨hst1, ?_, ?_⟩
  · unfold uploadHandler SaveUploadedFile
    simp only [hc2]
  · unfold uploadHandler SaveUploadedFile
    simp only [hc2]
    rw [stat_of_not_fixed _ _ hfix, lookup_store_self]

/-- Witness for C2, amended: the file `a.txt` uploaded twice into an empty
storage directory. -/
theorem upload_same_name_replaces_witness :
    (uploadHandler ⟨[("uploads", Node.dir)], 0, 0⟩ (some ⟨"a.txt", [1]⟩)).2.status = 200 ∧
    (stat (uploadHandler ⟨[("uploads", Node.dir)], 0, 0⟩ (some ⟨"a.txt", [1]⟩)).1.fs
      ("uploads/" ++ "a.txt") = some (Node.file [1]) ∧
    (uploadHandler (uploadHandler ⟨[("uploads", Node.dir)], 0, 0⟩ (some ⟨"a.txt", [1]⟩)).1
      (some ⟨"a.txt", [2]⟩)).2.status = 200 ∧
    stat (uploadHandler (uploadHandler ⟨[("uploads", Node.dir)], 0, 0⟩ (some ⟨"a.txt", [1]⟩)).1
      (some ⟨"a.txt", [2]⟩)).1.fs ("uploads/" ++ "a.txt") = some (Node.file [2])) :=
  ⟨by decide, upload_same_name_replaces ⟨[("uploads", Node.dir)], 0, 0⟩ "a.txt" [1] [2] (by decide)⟩

/-- C3, at the failing input: one upload of `a.txt` into an empty storage
directory is answered with status 200 and stores the file, and
`getTodayUploadCount` on the server after it is 0, not 1; the package
variable `uploadCount` is 0 as before. -/
theorem getTodayUploadCount_ignores_uploads :
    (runUploads ⟨[("uploads", Node.dir)], 0, 0⟩ [⟨"a.txt", [1]⟩]).2 = [200] ∧
    stat (runUploads ⟨[("uploads", Node.dir)], 0, 0⟩ [⟨"a.txt", [1]⟩]).1.fs "uploads/a.txt" =
      some (Node.file [1]) ∧
    getTodayUploadCount (runUploads ⟨[("uploads", Node.dir)], 0, 0⟩ [⟨"a.txt", [1]⟩]).1 = 0 ∧
    (runUploads ⟨[("uploads", Node.dir)], 0, 0⟩ [⟨"a.txt", [1]⟩]).1.uploadCount = 0 ∧
    getTodayUploadCount (runUploads ⟨[("uploads", Node.dir)], 0, 0⟩ [⟨"a.txt", [1]⟩]).1 ≠ 1 := by
  decide

/-- C4, at the failing input: the storage directory holds the directory
`sub`; `getFileList` lists it, and the entry has `IsDir = false`. -/
theorem getFileList_lists_directory_unflagged (other : String → Except String (List String)) :
    stat [("uploads", Node.dir), ("uploads/sub", Node.dir)] "uploads/sub" = some Node.dir ∧
    getFileList (Glob other [("uploads", Node.dir), ("uploads/sub", Node.dir)]) "uploads" =
      [{ Name := "sub", URL := "/uploads/sub", IsDir := false, Password := "your_password" }] := by
  refine ⟨by decide, ?_⟩
  have hg : Glob other [("uploads", Node.dir), ("uploads/sub", Node.dir)] (Join "uploads" "*") =
      Except.ok ["uploads/sub"] := by
    have hp : Join "uploads" "*" = "uploads/*" := by decide
    rw [hp]
    unfold Glob
    rw [if_pos (by decide)]
    exact congrArg Except.ok (by decide)
  unfold getFileList
  rw [hg]
  decide

/-- C5, as stated, fails: for the host `example.com` and the name
`report.pdf` the handler answers `example.com/uploads/report.pdf`, which is
not `http://example.com/uploads/report.pdf`. -/
theorem directLink_lacks_scheme :
    (directLinkHandler ⟨[], 0, 0⟩ "example.com" "report.pdf").2.body =
      Body.text "example.com/uploads/report.pdf" ∧
    (directLinkHandler ⟨[], 0, 0⟩ "example.com" "report.pdf").2.body ≠
      Body.text "http://example.com/uploads/report.pdf" := by
  decide

/-- C5, amended: for every request host `h` and name `n` the direct link is
`h ++ "/uploads/" ++ n`, answered with status 200 whatever the state: the
URL of the claim without its `http://` prefix. -/
theorem directLink_is_host_and_path (s : Server) (h n : String) :
    (directLinkHandler s h n).2 = { status := 200, body := Body.text (h ++ "/uploads/" ++ n) } ∧
    "http://" ++ (h ++ "/uploads/" ++ n) = "http://" ++ h ++ "/uploads/" ++ n := by
  refine ⟨rfl, ?_⟩
  simp only [String.append_assoc]

/-- C8, as stated, fails: after `a.txt` has been deleted nothing is stored
under the name, and the handler of `GET /file/a.txt` still answers with
status 200 and a file record for `a.txt`. -/
theorem fileHandler_after_delete_returns_record :
    deleteFile [("uploads", Node.dir), ("uploads/a.txt", Node.file [1])] "a.txt" =
      ([("uploads", Node.dir)], none) ∧
    stat [("uploads", Node.dir)] (Join "uploads" "a.txt") = none ∧
    (fileHandler ⟨[("uploads", Node.dir)], 0, 0⟩ "a.txt").2 =
      { status := 200
        body := Body.fileInfo
          { Name := "a.txt", URL := "/uploads/a.txt", IsDir := false, Password := "your_password" } } := by
  decide

/-- C8, amended: the handler of `GET /file/:name` does not look at the
storage.  For every state and every name, stored or not, it answers with
status 200 and the record with that name, the URL `/uploads/` followed by
the name, `IsDir = false` and the password `your_password`, and leaves the
state as it is. -/
theorem fileHandler_answers_any_name (s : Server) (name : String) :
    fileHandler s name =
      (s,
        { status := 200
          body := Body.fileInfo
            { Name := name
              URL := "/uploads/" ++ name
              IsDir := false
              Password := "your_password" } }) := by
  rfl

/-- C9, as stated, fails: without a readable `app.log` the admin handler
answers with status 500 and the text of the read failure, not with a
snapshot. -/
theorem adminHandler_fails_without_log :
    ReadFile [("uploads", Node.dir), ("uploads/a.txt", Node.file [1])] "app.log" =
      Except.error Errno.ENOENT ∧
    (adminHandler (fun _ => Except.ok [])
      ⟨[("uploads", Node.dir), ("uploads/a.txt", Node.file [1])], 0, 0⟩).2 =
      { status := 500, body := Body.text "无法读取日志文件" } := by
  decide

/-- C9, amended: the admin handler gives up when the log cannot be read.
For every state, when reading `app.log` fails the answer is status 500 with
the read-failure text; when it succeeds the answer is status 200 with the
snapshot made of the two counters (both 0), the bytes of the log and the
listing of `uploads`, which is empty when the directory scan fails. -/
theorem adminHandler_snapshot_needs_log (other : String → Except String (List String))
    (s : Server) :
    (∀ e, ReadFile s.fs "app.log" = Except.error e →
      (adminHandler other s).2 = { status := 500, body := Body.text "无法读取日志文件" }) ∧
    (∀ c, ReadFile s.fs "app.log" = Except.ok c →
      (adminHandler other s).2 =
        { status := 200
          body := Body.admin
            { UploadCount := 0
              DownloadCount := 0
              LogContent := c
              Files := getFileList (Glob other s.fs) "uploads" } }) := by
  constructor
  · intro e he
    unfold adminHandler
    simp only [he]
  · intro c hc
    unfold adminHandler
    simp only [hc]
    rfl

/-- Witness for C9, amended: a state with a log of two bytes and an empty
storage directory. -/
theorem adminHandler_snapshot_needs_log_witness :
    ReadFile [("uploads", Node.dir), ("app.log", Node.file [1, 2])] "app.log" = Except.ok [1, 2] ∧
    (adminHandler (fun _ => Except.ok [])
      ⟨[("uploads", Node.dir), ("app.log", Node.file [1, 2])], 0, 0⟩).2 =
      { status := 200
        body := Body.admin
          { UploadCount := 0
            DownloadCount := 0
            LogContent := [1, 2]
            Files := getFileList
              (Glob (fun _ => Except.ok []) [("uploads", Node.dir), ("app.log", Node.file [1, 2])])
              "uploads" } } :=
  ⟨by decide,
    (adminHandler_snapshot_needs_log (fun _ => Except.ok [])
      ⟨[("uploads", Node.dir), ("app.log", Node.file [1, 2])], 0, 0⟩).2 [1, 2] (by decide)⟩

/-- C10: for every directory and every outcome of the directory scan of
`dir/*`: when the scan returns the paths `ms`, `getFileList` returns as many
entries, the entry at each position has the base name of the path at that
position as `Name` and `/uploads/` followed by that name as `URL`, which is
the URL the file detail page and the upload success page build for the
name; when the scan returns an error the list is empty. -/
theorem getFileList_entries (scan : String → Except String (List String)) (dir : String) :
    (∀ ms, scan (Join dir "*") = Except.ok ms →
      (getFileList scan dir).length = ms.length ∧
      (getFileList scan dir).map File.Name = ms.map Base ∧
      (∀ (i : Nat) (f : File) (m : String), (getFileList scan dir)[i]? = some f → ms[i]? = some m →
        f.Name = Base m ∧ f.URL = "/uploads/" ++ f.Name ∧
        f.URL = (detailFile f.Name).URL ∧ f.URL = (successFile f.Name).URL)) ∧
    (∀ e, scan (Join dir "*") = Except.error e → getFileList scan dir = []) := by
  constructor
  · intro ms hms
    unfold getFileList
    simp only [hms]
    refine ⟨by simp, by simp [Function.comp_def], ?_⟩
    intro i f m hf hm
    rw [List.getElem?_map, hm] at hf
    simp only [Option.map_some', Option.some.injEq] at hf
    subst hf
    exact ⟨rfl, rfl, rfl, rfl⟩
  · intro e he
    unfold getFileList
    simp only [he]

/-- Witness for C10: a scan that returns two paths of `uploads`. -/
theorem getFileList_entries_witness :
    (fun _ => Except.ok ["uploads/a.txt", "uploads/b.txt"] : String → Except String (List String))
      (Join "uploads" "*") = Except.ok ["uploads/a.txt", "uploads/b.txt"] ∧
    ((getFileList (fun _ => Except.ok ["uploads/a.txt", "uploads/b.txt"]) "uploads").length =
        ["uploads/a.txt", "uploads/b.txt"].length ∧
      (getFileList (fun _ => Except.ok ["uploads/a.txt", "uploads/b.txt"]) "uploads").map File.Name =
        ["uploads/a.txt", "uploads/b.txt"].map Base ∧
      (∀ (i : Nat) (f : File) (m : String),
        (getFileList (fun _ => Except.ok ["uploads/a.txt", "uploads/b.txt"]) "uploads")[i]? = some f →
        ["uploads/a.txt", "uploads/b.txt"][i]? = some m →
        f.Name = Base m ∧ f.URL = "/uploads/" ++ f.Name ∧
        f.URL = (detailFile f.Name).URL ∧ f.URL = (successFile f.Name).URL)) :=
  ⟨rfl,
    (getFileList_entries (fun _ => Except.ok ["uploads/a.txt", "uploads/b.txt"]) "uploads").1
      ["uploads/a.txt", "uploads/b.txt"] rfl⟩

/-- C6: for every state of the directory tree, the names of the entries
that `getFileList` returns for the storage root are in ascending order,
the directory scan being Go's, which sorts the names of the directory. -/
theorem getFileList_names_sorted (other : String → Except String (List String)) (fs : FS) :
    List.Sorted stringLE ((getFileList (Glob other fs) "uploads").map File.Name) := by
  unfold getFileList
  rw [Glob_uploads]
  simp only [List.map_map]
  unfold glob
  cases hs : stat fs "uploads" with
  | none => simp
  | some nd =>
    cases nd with
    | file c => simp
    | dir =>
      simp only [List.map_map]
      have hc : Clean "uploads" = "uploads" := by decide
      rw [hc]
      have hid : List.map ((File.Name ∘ fun file =>
            ({ Name := Base file, URL := "/uploads/" ++ Base file, IsDir := false,
               Password := "your_password" } : File)) ∘ Join "uploads")
          (((Readdirnames fs "uploads").insertionSort stringLE).filter matchStar) =
          ((Readdirnames fs "uploads").insertionSort stringLE).filter matchStar := by
        conv_rhs => rw [← List.map_id (((Readdirnames fs "uploads").insertionSort stringLE).filter matchStar)]
        apply List.map_congr_left
        intro n hn
        have hmem : n ∈ Readdirnames fs "uploads" :=
          (List.mem_insertionSort stringLE).1 (List.mem_of_mem_filter hn)
        simpa using Base_Join_uploads n (validName_of_mem_Readdirnames fs n hmem)
      rw [hid]
      haveI : IsTotal String stringLE := ⟨fun a b => lexLE_total a.data b.data⟩
      haveI : IsTrans String stringLE := ⟨fun a b c => lexLE_trans a.data b.data c.data⟩
      exact (List.sorted_insertionSort stringLE _).filter _

end SimpleFS
